import Mathlib

/-!
Verification of the dreamfield-template world partitioning and streaming
pipeline against its specification.

The repository's own sources (build.rs, src/main.rs, src/sim/fire_orb.rs,
src/sim.rs) are embedded directly.  The Spatial Partitioner, Chunk
Serializer and Runtime Chunk Manager live in external crates
(dreamfield_system / dreamfield_renderer); only their callers appear in
the repository, so those components are modelled from the specification,
as marked on each definition.
-/

namespace Dreamfield

/-! ## Cell resolution (Runtime Chunk Manager, spec 4.4 / 3) -/

/-- World-space point, components as exact rationals standing for the
program's floating point coordinates. -/
abbrev Vec3 := ℚ × ℚ × ℚ

/-- Integer cell coordinate triple identifying a cubic region of world
space of side `cell_size`. -/
abbrev CellCoord := ℤ × ℤ × ℤ

/-- Modelled from the spec: `resolve` of the Runtime Chunk Manager (not in
this repository's sources) maps a world-space point to its cell coordinate
by floor-division of each component by `cell_size`. -/
def resolvePoint (cellSize : ℚ) (p : Vec3) : CellCoord :=
  (⌊p.1 / cellSize⌋, ⌊p.2.1 / cellSize⌋, ⌊p.2.2 / cellSize⌋)

/-- Membership of a point in the cubic cell addressed by coordinate `c`:
each component lies in the half-open interval `[c*s, (c+1)*s)`. -/
def inCell (cellSize : ℚ) (c : CellCoord) (p : Vec3) : Prop :=
  ((c.1 : ℚ) * cellSize ≤ p.1 ∧ p.1 < ((c.1 : ℚ) + 1) * cellSize) ∧
  ((c.2.1 : ℚ) * cellSize ≤ p.2.1 ∧ p.2.1 < ((c.2.1 : ℚ) + 1) * cellSize) ∧
  ((c.2.2 : ℚ) * cellSize ≤ p.2.2 ∧ p.2.2 < ((c.2.2 : ℚ) + 1) * cellSize)

theorem floor_div_eq_iff (s x : ℚ) (c : ℤ) (hs : 0 < s) :
    ⌊x / s⌋ = c ↔ ((c : ℚ) * s ≤ x ∧ x < ((c : ℚ) + 1) * s) := by
  rw [Int.floor_eq_iff, le_div_iff₀ hs, div_lt_iff₀ hs]

theorem resolvePoint_eq_iff (s : ℚ) (p : Vec3) (c : CellCoord) (hs : 0 < s) :
    resolvePoint s p = c ↔ inCell s c p := by
  obtain ⟨c1, c2, c3⟩ := c
  simp only [resolvePoint, inCell, Prod.mk.injEq]
  rw [floor_div_eq_iff _ _ _ hs, floor_div_eq_iff _ _ _ hs,
    floor_div_eq_iff _ _ _ hs]

/-- C4: `resolve` uses floor division of world coordinates by `cell_size`:
with `cell_size = 16` the point (20, 0, 5) resolves to cell (1, 0, 0) and
the point (-1, 0, 0) resolves to cell (-1, 0, 0) (floor, not truncation
toward zero); `resolvePoint` is a pure function of the point and the cell
size, and two points map to the same `CellCoord` iff they lie in the same
cell. -/
theorem resolve_floor_division :
    resolvePoint 16 (20, 0, 5) = (1, 0, 0) ∧
    resolvePoint 16 (-1, 0, 0) = (-1, 0, 0) ∧
    ∀ s p q, 0 < s →
      (resolvePoint s p = resolvePoint s q ↔
        ∃ c, inCell s c p ∧ inCell s c q) := by
  refine ⟨?_, ?_, ?_⟩
  · exact (resolvePoint_eq_iff 16 (20, 0, 5) (1, 0, 0) (by norm_num)).mpr
      (by norm_num [inCell])
  · exact (resolvePoint_eq_iff 16 (-1, 0, 0) (-1, 0, 0) (by norm_num)).mpr
      (by norm_num [inCell])
  intro s p q hs
  constructor
  · intro h
    exact ⟨resolvePoint s q,
      (resolvePoint_eq_iff s p _ hs).mp h,
      (resolvePoint_eq_iff s q _ hs).mp rfl⟩
  · rintro ⟨c, hp, hq⟩
    rw [(resolvePoint_eq_iff s p c hs).mpr hp,
      (resolvePoint_eq_iff s q c hs).mpr hq]

/-- Witness for `resolve_floor_division` at cell size 16 and two concrete
points lying in the same cell. -/
theorem resolve_floor_division_witness :
    (0 : ℚ) < 16 ∧
    (resolvePoint 16 (20, 0, 5) = resolvePoint 16 (17, 3, 8) ↔
      ∃ c, inCell 16 c (20, 0, 5) ∧ inCell 16 c (17, 3, 8)) :=
  ⟨by decide, resolve_floor_division.2.2 16 (20, 0, 5) (17, 3, 8) (by decide)⟩

/-! ## Spatial Partitioner (spec 4.2) -/

/-- Triangle in world space with rational vertex coordinates. -/
structure Tri where
  a : Vec3
  b : Vec3
  c : Vec3
deriving DecidableEq

/-- Componentwise minimum corner of the axis-aligned bounding box of a
triangle. -/
def aabbMin (t : Tri) : Vec3 :=
  (min t.a.1 (min t.b.1 t.c.1),
   min t.a.2.1 (min t.b.2.1 t.c.2.1),
   min t.a.2.2 (min t.b.2.2 t.c.2.2))

/-- Componentwise maximum corner of the axis-aligned bounding box of a
triangle. -/
def aabbMax (t : Tri) : Vec3 :=
  (max t.a.1 (max t.b.1 t.c.1),
   max t.a.2.1 (max t.b.2.1 t.c.2.1),
   max t.a.2.2 (max t.b.2.2 t.c.2.2))

/-- Centroid of a triangle. -/
def centroid (t : Tri) : Vec3 :=
  ((t.a.1 + t.b.1 + t.c.1) / 3,
   (t.a.2.1 + t.b.2.1 + t.c.2.1) / 3,
   (t.a.2.2 + t.b.2.2 + t.c.2.2) / 3)

/-- Boundary-handling policy for triangles straddling a cell boundary:
assign whole triangle to the cell of its centroid, or clip it against the
cell boundaries. -/
inductive Policy where
  | centroidAssign
  | clip
deriving DecidableEq

/-- Consecutive integers starting at `lo`, with `n + 1` elements. -/
def rangeIntAux (lo : ℤ) : ℕ → List ℤ
  | 0 => [lo]
  | n + 1 => lo :: rangeIntAux (lo + 1) n

/-- Inclusive integer range as a list; contains `lo` even when `hi < lo`. -/
def rangeInt (lo hi : ℤ) : List ℤ :=
  rangeIntAux lo (hi - lo).toNat

/-- Cells spanned by the axis-aligned box of cells between coordinates
`lo` and `hi`. -/
def cellRange (lo hi : CellCoord) : List CellCoord :=
  (rangeInt lo.1 hi.1).flatMap (fun x =>
    (rangeInt lo.2.1 hi.2.1).flatMap (fun y =>
      (rangeInt lo.2.2 hi.2.2).map (fun z => (x, y, z))))

/-- Modelled from the spec: cell assignment of the Spatial Partitioner
(not in this repository's sources).  If the triangle's bounding box lies
entirely within one cell, it is assigned to that cell; otherwise, under
the centroid policy the whole triangle goes to the cell containing its
centroid, and under the clipping policy a fragment of the triangle goes
to each cell the bounding box overlaps (each fragment tagged with its
source triangle). -/
def assignCells (pol : Policy) (cellSize : ℚ) (t : Tri) : List CellCoord :=
  let lo := resolvePoint cellSize (aabbMin t)
  let hi := resolvePoint cellSize (aabbMax t)
  if lo = hi then [lo]
  else
    match pol with
    | .centroidAssign => [resolvePoint cellSize (centroid t)]
    | .clip => cellRange lo hi

/-- Modelled from the spec: the triangles (or fragment sources) of the
output chunk for one cell, for a given source triangle list. -/
def chunkTris (pol : Policy) (cellSize : ℚ) (tris : List Tri)
    (c : CellCoord) : List Tri :=
  tris.filter (fun t => decide (c ∈ assignCells pol cellSize t))

theorem lo_mem_rangeInt (lo hi : ℤ) : lo ∈ rangeInt lo hi := by
  unfold rangeInt
  cases h : (hi - lo).toNat <;> simp [rangeIntAux]

theorem lo_mem_cellRange (lo hi : CellCoord) : lo ∈ cellRange lo hi := by
  simp only [cellRange, List.mem_flatMap, List.mem_map]
  exact ⟨lo.1, lo_mem_rangeInt _ _, lo.2.1, lo_mem_rangeInt _ _,
    lo.2.2, lo_mem_rangeInt _ _, rfl⟩

theorem assignCells_exists_mem (pol : Policy) (s : ℚ) (t : Tri) :
    ∃ c, c ∈ assignCells pol s t := by
  unfold assignCells
  by_cases h : resolvePoint s (aabbMin t) = resolvePoint s (aabbMax t)
  · exact ⟨resolvePoint s (aabbMin t), by simp [h]⟩
  · cases pol
    · exact ⟨resolvePoint s (centroid t), by simp [h]⟩
    · exact ⟨resolvePoint s (aabbMin t), by simp [h, lo_mem_cellRange]⟩

/-- C1: for every input triangle list, grid cell size and either
boundary-handling policy, a triangle appears in some output chunk iff it
is an input triangle: no triangle is silently lost, and the union of
triangles across all output chunks equals the set of input triangles. -/
theorem partition_no_triangle_loss (pol : Policy) (s : ℚ) (tris : List Tri)
    (t : Tri) : (∃ c, t ∈ chunkTris pol s tris c) ↔ t ∈ tris := by
  constructor
  · rintro ⟨c, hc⟩
    exact (List.mem_filter.mp hc).1
  · intro ht
    obtain ⟨c, hc⟩ := assignCells_exists_mem pol s t
    exact ⟨c, List.mem_filter.mpr ⟨ht, by simpa using hc⟩⟩

/-! ## Chunk Serializer (spec 4.3 / 6)

Modelled from the spec: the Chunk Serializer and its artifact layout
(`[format_version: u32][model_id: fixed-width string][cell_x,cell_y,cell_z:
i32][bbox_min,bbox_max: 3 f32 each][vertex_count: u32][vertices]
[index_count: u32][indices][material_ref: fixed-width string]
[collision_triangle_count: u32][collision_triangles]`) are not in this
repository's sources.  Floating point fields are modelled as their raw
32-bit bit patterns, since serialization only moves bytes. -/

/-- One byte of a chunk artifact. -/
abbrev Byte := Fin 256

/-- One 32-bit word: a u32 field or the bit pattern of an f32 field. -/
abbrev Word32 := Fin 4294967296

/-- Vertex position as three 32-bit f32 bit patterns. -/
abbrev Vert := Word32 × Word32 × Word32

/-- Collision triangle as three vertices. -/
abbrev TriWords := Vert × Vert × Vert

/-- Little-endian encoding of a 32-bit word into four bytes. -/
def encodeU32 (n : Word32) : List Byte :=
  [⟨n.val % 256, by omega⟩, ⟨n.val / 256 % 256, by omega⟩,
   ⟨n.val / 65536 % 256, by omega⟩, ⟨n.val / 16777216 % 256, by omega⟩]

/-- Reads a little-endian 32-bit word from the front of a byte list. -/
def readU32 : List Byte → Option (Word32 × List Byte)
  | b0 :: b1 :: b2 :: b3 :: rest =>
      some (⟨b0.val + 256 * b1.val + 65536 * b2.val + 16777216 * b3.val, by
        have h0 := b0.isLt
        have h1 := b1.isLt
        have h2 := b2.isLt
        have h3 := b3.isLt
        omega⟩, rest)
  | _ => none

theorem readU32_append (n : Word32) (r : List Byte) :
    readU32 (encodeU32 n ++ r) = some (n, r) := by
  obtain ⟨v, hv⟩ := n
  simp [encodeU32, readU32, Prod.ext_iff, Fin.ext_iff]
  omega

/-- Two's-complement encoding of an i32 field. -/
def encodeI32 (z : ℤ) : List Byte :=
  encodeU32 ⟨(z % 4294967296).toNat, by omega⟩

/-- Two's-complement decoding of an i32 field. -/
def decodeI32 (w : Word32) : ℤ :=
  if w.val < 2147483648 then (w.val : ℤ) else (w.val : ℤ) - 4294967296

/-- Reads an i32 field from the front of a byte list. -/
def readI32 (bs : List Byte) : Option (ℤ × List Byte) :=
  match readU32 bs with
  | some (w, rest) => some (decodeI32 w, rest)
  | none => none

theorem readI32_append (z : ℤ) (h1 : -2147483648 ≤ z) (h2 : z < 2147483648)
    (r : List Byte) : readI32 (encodeI32 z ++ r) = some (z, r) := by
  rw [readI32, encodeI32, readU32_append]
  simp only [decodeI32]
  split <;> simp <;> omega

/-- Reads exactly `n` raw bytes from the front of a byte list. -/
def readBytes : ℕ → List Byte → Option (List Byte × List Byte)
  | 0, bs => some ([], bs)
  | _ + 1, [] => none
  | n + 1, b :: bs =>
      match readBytes n bs with
      | some (l, rest) => some (b :: l, rest)
      | none => none

theorem readBytes_append (l r : List Byte) :
    readBytes l.length (l ++ r) = some (l, r) := by
  induction l with
  | nil => rfl
  | cons b t ih => simp [readBytes, ih]

/-- Serialized form of one vertex: three little-endian words. -/
def encodeVert (v : Vert) : List Byte :=
  encodeU32 v.1 ++ encodeU32 v.2.1 ++ encodeU32 v.2.2

/-- Reads one vertex from the front of a byte list. -/
def readVert (bs : List Byte) : Option (Vert × List Byte) :=
  match readU32 bs with
  | some (x, bs1) =>
      match readU32 bs1 with
      | some (y, bs2) =>
          match readU32 bs2 with
          | some (z, bs3) => some ((x, y, z), bs3)
          | none => none
      | none => none
  | none => none

theorem readVert_append (v : Vert) (r : List Byte) :
    readVert (encodeVert v ++ r) = some (v, r) := by
  obtain ⟨x, y, z⟩ := v
  simp [encodeVert, readVert, List.append_assoc, readU32_append]

/-- Serialized form of one collision triangle: three vertices. -/
def encodeTriW (t : TriWords) : List Byte :=
  encodeVert t.1 ++ encodeVert t.2.1 ++ encodeVert t.2.2

/-- Reads one collision triangle from the front of a byte list. -/
def readTriW (bs : List Byte) : Option (TriWords × List Byte) :=
  match readVert bs with
  | some (a, bs1) =>
      match readVert bs1 with
      | some (b, bs2) =>
          match readVert bs2 with
          | some (c, bs3) => some ((a, b, c), bs3)
          | none => none
      | none => none
  | none => none

theorem readTriW_append (t : TriWords) (r : List Byte) :
    readTriW (encodeTriW t ++ r) = some (t, r) := by
  obtain ⟨a, b, c⟩ := t
  simp [encodeTriW, readTriW, List.append_assoc, readVert_append]

/-- Reads a counted sequence of items with the given item reader. -/
def readListW (f : List Byte → Option (α × List Byte)) :
    ℕ → List Byte → Option (List α × List Byte)
  | 0, bs => some ([], bs)
  | n + 1, bs =>
      match f bs with
      | some (a, bs1) =>
          match readListW f n bs1 with
          | some (as, rest) => some (a :: as, rest)
          | none => none
      | none => none

theorem readListW_append (f : List Byte → Option (α × List Byte))
    (enc : α → List Byte) (H : ∀ a r, f (enc a ++ r) = some (a, r))
    (l : List α) (r : List Byte) :
    readListW f l.length (l.flatMap enc ++ r) = some (l, r) := by
  induction l generalizing r with
  | nil => rfl
  | cons a t ih =>
      simp only [List.flatMap_cons, List.length_cons, List.append_assoc,
        readListW, H, ih]

/-- Width in bytes of the fixed-width string fields of the artifact
header.  Modelled from the spec: the spec fixes no concrete width, so it
is a named constant here. -/
def stringFieldWidth : ℕ := 32

/-- Fixed-width string field: content padded with zero bytes. -/
def padFixed (l : List Byte) : List Byte :=
  l ++ List.replicate (stringFieldWidth - l.length) (0 : Byte)

theorem padFixed_length (l : List Byte) (h : l.length ≤ stringFieldWidth) :
    (padFixed l).length = stringFieldWidth := by
  simp [padFixed]
  omega

theorem readBytes_pad (l : List Byte) (h : l.length ≤ stringFieldWidth)
    (r : List Byte) :
    readBytes stringFieldWidth (padFixed l ++ r) = some (padFixed l, r) := by
  rw [← padFixed_length l h]
  exact readBytes_append _ _

/-- Input to the Chunk Serializer for one cell: header fields, vertex and
index data, material reference and the collision triangle list. -/
structure ChunkData where
  formatVersion : Word32
  modelId : List Byte
  cellX : ℤ
  cellY : ℤ
  cellZ : ℤ
  bboxMin : Vert
  bboxMax : Vert
  vertices : List Vert
  indices : List Word32
  materialRef : List Byte
  collision : List TriWords
deriving DecidableEq

/-- Checked conversion of a count to a u32 header field. -/
def natToWord32 (n : ℕ) : Option Word32 :=
  if h : n < 4294967296 then some ⟨n, h⟩ else none

theorem natToWord32_val (n : ℕ) (w : Word32) (h : natToWord32 n = some w) :
    w.val = n := by
  unfold natToWord32 at h
  split at h
  · cases h
    rfl
  · cases h

/-- Modelled from the spec: the Chunk Serializer (not in this repository's
sources) encodes one cell's data into the artifact byte layout of spec
section 6, failing with a `SerializationError` when a count exceeds its
fixed-width header field or a string exceeds its fixed width. -/
def serializeChunk (c : ChunkData) : Except String (List Byte) :=
  match natToWord32 c.vertices.length, natToWord32 c.indices.length,
      natToWord32 c.collision.length with
  | some vc, some ic, some cc =>
      if c.modelId.length ≤ stringFieldWidth ∧
          c.materialRef.length ≤ stringFieldWidth then
        Except.ok (encodeU32 c.formatVersion ++ padFixed c.modelId ++
          encodeI32 c.cellX ++ encodeI32 c.cellY ++ encodeI32 c.cellZ ++
          encodeVert c.bboxMin ++ encodeVert c.bboxMax ++
          encodeU32 vc ++ c.vertices.flatMap encodeVert ++
          encodeU32 ic ++ c.indices.flatMap encodeU32 ++
          padFixed c.materialRef ++
          encodeU32 cc ++ c.collision.flatMap encodeTriW)
      else Except.error "SerializationError: string exceeds fixed width"
  | _, _, _ => Except.error "SerializationError: count exceeds u32 field"

/-- Modelled from the spec: deserialization of a chunk artifact, reading
the fields of the spec section 6 layout in order and requiring the input
to be consumed exactly. -/
def deserializeChunk (bs : List Byte) : Option ChunkData :=
  match readU32 bs with
  | none => none
  | some (ver, bs1) =>
  match readBytes stringFieldWidth bs1 with
  | none => none
  | some (mid, bs2) =>
  match readI32 bs2 with
  | none => none
  | some (cx, bs3) =>
  match readI32 bs3 with
  | none => none
  | some (cy, bs4) =>
  match readI32 bs4 with
  | none => none
  | some (cz, bs5) =>
  match readVert bs5 with
  | none => none
  | some (bmin, bs6) =>
  match readVert bs6 with
  | none => none
  | some (bmax, bs7) =>
  match readU32 bs7 with
  | none => none
  | some (vc, bs8) =>
  match readListW readVert vc.val bs8 with
  | none => none
  | some (verts, bs9) =>
  match readU32 bs9 with
  | none => none
  | some (ic, bs10) =>
  match readListW readU32 ic.val bs10 with
  | none => none
  | some (inds, bs11) =>
  match readBytes stringFieldWidth bs11 with
  | none => none
  | some (mat, bs12) =>
  match readU32 bs12 with
  | none => none
  | some (cc, bs13) =>
  match readListW readTriW cc.val bs13 with
  | none => none
  | some (colls, bs14) =>
  match bs14 with
  | [] => some ⟨ver, mid, cx, cy, cz, bmin, bmax, verts, inds, mat, colls⟩
  | _ => none

/-- C3: serializing a chunk and deserializing the resulting artifact
reproduces exactly the vertex, index and collision data passed in, as
well as the fixed-size header fields; the fixed-width string fields come
back in their zero-padded on-disk form. -/
theorem serialize_deserialize_roundtrip (c : ChunkData) (bytes : List Byte)
    (h : serializeChunk c = Except.ok bytes)
    (hx1 : -2147483648 ≤ c.cellX) (hx2 : c.cellX < 2147483648)
    (hy1 : -2147483648 ≤ c.cellY) (hy2 : c.cellY < 2147483648)
    (hz1 : -2147483648 ≤ c.cellZ) (hz2 : c.cellZ < 2147483648) :
    deserializeChunk bytes =
      some { c with modelId := padFixed c.modelId,
                    materialRef := padFixed c.materialRef } := by
  unfold serializeChunk at h
  split at h
  case h_2 => cases h
  case h_1 vc ic cc hvc hic hcc =>
    split at h
    case isFalse => cases h
    case isTrue hlen =>
      obtain ⟨hmid, hmat⟩ := hlen
      obtain ⟨rfl⟩ := h
      have hv := natToWord32_val _ _ hvc
      have hi := natToWord32_val _ _ hic
      have hc := natToWord32_val _ _ hcc
      rw [show c.collision.flatMap encodeTriW =
        c.collision.flatMap encodeTriW ++ [] by simp]
      simp only [deserializeChunk, List.append_assoc, readU32_append,
        readBytes_pad _ hmid, readBytes_pad _ hmat,
        readI32_append _ hx1 hx2, readI32_append _ hy1 hy2,
        readI32_append _ hz1 hz2, readVert_append, hv, hi, hc,
        readListW_append readVert encodeVert readVert_append,
        readListW_append readU32 encodeU32 readU32_append,
        readListW_append readTriW encodeTriW readTriW_append]

/-- Concrete empty chunk used to witness the serializer round trip. -/
def chunkExample : ChunkData :=
  { formatVersion := 1, modelId := [], cellX := 0, cellY := 0, cellZ := 0,
    bboxMin := (0, 0, 0), bboxMax := (0, 0, 0), vertices := [], indices := [],
    materialRef := [], collision := [] }

/-- Bytes of the serialized example chunk. -/
def chunkExampleBytes : List Byte :=
  match serializeChunk chunkExample with
  | Except.ok bs => bs
  | Except.error _ => []

/-- Witness for `serialize_deserialize_roundtrip` on a concrete chunk. -/
theorem serialize_deserialize_roundtrip_witness :
    serializeChunk chunkExample = Except.ok chunkExampleBytes ∧
    deserializeChunk chunkExampleBytes =
      some { chunkExample with modelId := padFixed chunkExample.modelId,
                               materialRef := padFixed chunkExample.materialRef } :=
  ⟨by rfl, serialize_deserialize_roundtrip chunkExample chunkExampleBytes
    (by rfl) (by decide) (by decide) (by decide) (by decide) (by decide)
    (by decide)⟩

/-! ## Offline build: partition plus serialize (spec 2, 8) -/

/-- Componentwise minimum of the bounding boxes of a triangle list. -/
def listAabbMin (tris : List Tri) : Vec3 :=
  tris.foldl (fun acc t =>
    (min acc.1 (aabbMin t).1, min acc.2.1 (aabbMin t).2.1,
     min acc.2.2 (aabbMin t).2.2)) (0, 0, 0)

/-- Componentwise maximum of the bounding boxes of a triangle list. -/
def listAabbMax (tris : List Tri) : Vec3 :=
  tris.foldl (fun acc t =>
    (max acc.1 (aabbMax t).1, max acc.2.1 (aabbMax t).2.1,
     max acc.2.2 (aabbMax t).2.2)) (0, 0, 0)

/-- Modelled from the spec: serializer input for one cell of one model.
The abstract function `enc` stands for the conversion of a rational world
coordinate to the bit pattern of its f32 representation. -/
def mkChunkData (enc : Vec3 → Vert) (modelId mat : List Byte)
    (c : CellCoord) (tris : List Tri) : ChunkData :=
  { formatVersion := 1
    modelId := modelId
    cellX := c.1
    cellY := c.2.1
    cellZ := c.2.2
    bboxMin := enc (listAabbMin tris)
    bboxMax := enc (listAabbMax tris)
    vertices := tris.flatMap (fun t => [enc t.a, enc t.b, enc t.c])
    indices := (List.range (3 * tris.length)).map
      (fun i => (⟨i % 4294967296, by omega⟩ : Word32))
    materialRef := mat
    collision := tris.map (fun t => (enc t.a, enc t.b, enc t.c)) }

/-- Modelled from the spec: the offline build for one world model —
partition the triangles into cells, then serialize one artifact per
non-empty cell (cells with no assigned triangles are skipped). -/
def buildArtifacts (enc : Vec3 → Vert) (pol : Policy) (s : ℚ)
    (modelId mat : List Byte) (tris : List Tri) :
    List (CellCoord × Except String (List Byte)) :=
  ((tris.flatMap (assignCells pol s)).dedup).map
    (fun c => (c, serializeChunk
      (mkChunkData enc modelId mat c (chunkTris pol s tris c))))

/-- C7: the build is deterministic — running partition plus serialization
twice on unchanged input produces byte-identical chunk artifacts. -/
theorem build_deterministic (enc : Vec3 → Vert) (pol : Policy) (s : ℚ)
    (modelId mat : List Byte) (tris tris' : List Tri) (h : tris = tris') :
    buildArtifacts enc pol s modelId mat tris =
      buildArtifacts enc pol s modelId mat tris' := by
  rw [h]

/-- Witness for `build_deterministic` on a concrete one-triangle model. -/
theorem build_deterministic_witness :
    [Tri.mk (0, 0, 0) (1, 0, 0) (0, 1, 0)] =
        [Tri.mk (0, 0, 0) (1, 0, 0) (0, 1, 0)] ∧
    buildArtifacts (fun _ => (0, 0, 0)) Policy.centroidAssign 16 [] []
        [Tri.mk (0, 0, 0) (1, 0, 0) (0, 1, 0)] =
      buildArtifacts (fun _ => (0, 0, 0)) Policy.centroidAssign 16 [] []
        [Tri.mk (0, 0, 0) (1, 0, 0) (0, 1, 0)] :=
  ⟨rfl, build_deterministic (fun _ => (0, 0, 0)) Policy.centroidAssign 16 [] []
    [Tri.mk (0, 0, 0) (1, 0, 0) (0, 1, 0)]
    [Tri.mk (0, 0, 0) (1, 0, 0) (0, 1, 0)] rfl⟩

/-! ## Runtime Chunk Manager (spec 4.4 / 3 / 5)

Modelled from the spec: the Runtime Chunk Manager is not in this
repository's sources (main.rs only constructs it).  Asynchronous loading
is modelled as explicit state transitions: a fetch request appends to the
in-flight list and the cumulative fetch log; load completion (success or
failure) is a separate event removing it from the in-flight list.  Per
spec 4.4, `Failed` is terminal: `tick` issues loads only for unloaded
cells and a failed chunk is retried only by an explicit `request_load`. -/

/-- Chunk cache key, `(model_id, CellCoordinate)`. -/
abbrev ChunkKey := String × CellCoord

/-- Load state of one cache entry; a resident chunk carries the number of
consecutive ticks it has spent outside the active set. -/
inductive ChunkState where
  | unloaded
  | loading
  | resident (outsideTicks : ℕ)
  | failed
deriving DecidableEq

/-- State of the Runtime Chunk Manager: the cache, the keys with an
in-flight load, and the cumulative log of issued fetches. -/
structure ManagerState where
  cache : ChunkKey → ChunkState
  inFlight : List ChunkKey
  fetchLog : List ChunkKey

/-- Initial manager state: cache empty (every key unloaded), no load in
flight. -/
def initState : ManagerState :=
  { cache := fun _ => ChunkState.unloaded, inFlight := [], fetchLog := [] }

/-- Modelled from the spec: `request_load` — idempotent; if the chunk is
Resident or already Loading nothing happens, otherwise it transitions to
Loading and a fetch from the Chunk Store is begun. -/
def request_load (s : ManagerState) (k : ChunkKey) : ManagerState :=
  match s.cache k with
  | ChunkState.resident _ => s
  | ChunkState.loading => s
  | _ =>
      { cache := fun j => if j = k then ChunkState.loading else s.cache j,
        inFlight := s.inFlight ++ [k],
        fetchLog := s.fetchLog ++ [k] }

/-- Modelled from the spec: `poll_resident` — non-blocking; returns a
handle only for a Resident chunk. -/
def poll_resident (s : ManagerState) (k : ChunkKey) : Option ChunkKey :=
  match s.cache k with
  | ChunkState.resident _ => some k
  | _ => none

/-- Number of occurrences of a key in a list. -/
def countKey (k : ChunkKey) : List ChunkKey → ℕ
  | [] => 0
  | j :: t => (if j = k then 1 else 0) + countKey k t

/-- Removes the first occurrence of a key from a list. -/
def removeKey (k : ChunkKey) : List ChunkKey → List ChunkKey
  | [] => []
  | j :: t => if j = k then t else j :: removeKey k t

/-- Keeps one occurrence of every key of a list. -/
def uniqueKeys : List ChunkKey → List ChunkKey
  | [] => []
  | j :: t => if j ∈ t then uniqueKeys t else j :: uniqueKeys t

theorem countKey_append (k : ChunkKey) (l1 l2 : List ChunkKey) :
    countKey k (l1 ++ l2) = countKey k l1 + countKey k l2 := by
  induction l1 with
  | nil => simp [countKey]
  | cons j t ih => simp [countKey, ih]; omega

theorem countKey_removeKey_self (k : ChunkKey) (l : List ChunkKey) :
    countKey k (removeKey k l) = countKey k l - 1 := by
  induction l with
  | nil => simp [countKey, removeKey]
  | cons j t ih =>
      by_cases hj : j = k
      · simp [removeKey, countKey, hj]
      · simp [removeKey, countKey, hj, ih]

theorem countKey_removeKey_ne (j k : ChunkKey) (h : j ≠ k) (l : List ChunkKey) :
    countKey j (removeKey k l) = countKey j l := by
  induction l with
  | nil => simp [removeKey]
  | cons i t ih =>
      by_cases hi : i = k
      · subst hi
        simp [removeKey, countKey, Ne.symm h]
      · simp [removeKey, countKey, hi, ih]

theorem countKey_uniqueKeys (k : ChunkKey) (l : List ChunkKey) :
    countKey k (uniqueKeys l) = if k ∈ l then 1 else 0 := by
  induction l with
  | nil => simp [uniqueKeys, countKey]
  | cons j t ih =>
      by_cases hj : j ∈ t
      · rw [uniqueKeys, if_pos hj, ih]
        by_cases hk : k = j
        · subst hk
          simp [hj]
        · simp [List.mem_cons, hk]
      · rw [uniqueKeys, if_neg hj]
        rw [countKey, ih]
        by_cases hk : j = k
        · subst hk
          simp [hj]
        · simp [hk, Ne.symm hk]

theorem countKey_filter (k : ChunkKey) (p : ChunkKey → Bool)
    (l : List ChunkKey) :
    countKey k (l.filter p) = if p k then countKey k l else 0 := by
  induction l with
  | nil => simp [countKey]
  | cons j t ih =>
      by_cases hj : p j
      · rw [List.filter_cons_of_pos hj, countKey, ih, countKey]
        by_cases hk : j = k
        · subst hk
          simp [hj]
        · simp [hk]
      · rw [List.filter_cons_of_neg hj, ih, countKey]
        by_cases hk : j = k
        · subst hk
          simp [hj]
        · simp [hk]

/-- Completion of an in-flight load with success: the chunk becomes
Resident with a fresh eviction counter. -/
def finishLoadOk (s : ManagerState) (k : ChunkKey) : ManagerState :=
  match s.cache k with
  | ChunkState.loading =>
      { cache := fun j => if j = k then ChunkState.resident 0 else s.cache j,
        inFlight := removeKey k s.inFlight,
        fetchLog := s.fetchLog }
  | _ => s

/-- Completion of an in-flight load with failure (missing artifact,
corrupt header, checksum mismatch): the chunk becomes Failed. -/
def finishLoadErr (s : ManagerState) (k : ChunkKey) : ManagerState :=
  match s.cache k with
  | ChunkState.loading =>
      { cache := fun j => if j = k then ChunkState.failed else s.cache j,
        inFlight := removeKey k s.inFlight,
        fetchLog := s.fetchLog }
  | _ => s

/-- Per-key transition for a key inside the active set on a tick: an
unloaded chunk starts loading, a resident chunk's eviction counter
resets. -/
def activeStep : ChunkState → ChunkState
  | ChunkState.unloaded => ChunkState.loading
  | ChunkState.resident _ => ChunkState.resident 0
  | st => st

/-- Per-key transition for a key outside the active set on a tick: a
resident chunk's outside counter increments and the chunk is unloaded
once the counter exceeds the grace period. -/
def passiveStep (grace : ℕ) : ChunkState → ChunkState
  | ChunkState.resident n =>
      if grace < n + 1 then ChunkState.unloaded else ChunkState.resident (n + 1)
  | st => st

/-- Modelled from the spec: `tick` — called once per simulation step with
the set of active cells; issues loads for active unloaded cells and ages
resident cells outside the active set toward eviction. -/
def tick (grace : ℕ) (s : ManagerState) (active : List ChunkKey) :
    ManagerState :=
  let newLoads := (uniqueKeys active).filter
    (fun k => decide (s.cache k = ChunkState.unloaded))
  { cache := fun k =>
      if k ∈ active then activeStep (s.cache k)
      else passiveStep grace (s.cache k),
    inFlight := s.inFlight ++ newLoads,
    fetchLog := s.fetchLog ++ newLoads }

/-- Events driving the Runtime Chunk Manager. -/
inductive MgrAction where
  | request (k : ChunkKey)
  | finishOk (k : ChunkKey)
  | finishErr (k : ChunkKey)
  | tickStep (active : List ChunkKey)
deriving DecidableEq

/-- Applies one event to the manager state. -/
def applyAction (grace : ℕ) (s : ManagerState) : MgrAction → ManagerState
  | MgrAction.request k => request_load s k
  | MgrAction.finishOk k => finishLoadOk s k
  | MgrAction.finishErr k => finishLoadErr s k
  | MgrAction.tickStep active => tick grace s active

/-- Manager state reached from startup by a sequence of events. -/
def runActions (grace : ℕ) (acts : List MgrAction) : ManagerState :=
  acts.foldl (applyAction grace) initState

/-- Cache invariant tying the Loading state to the in-flight list: a key
has exactly one in-flight load when Loading and none otherwise. -/
def MgrInv (s : ManagerState) : Prop :=
  ∀ k, countKey k s.inFlight =
    (if s.cache k = ChunkState.loading then 1 else 0)

theorem mgrInv_init : MgrInv initState := by
  intro k
  simp [initState, countKey]

theorem mgrInv_request (s : ManagerState) (k : ChunkKey) (h : MgrInv s) :
    MgrInv (request_load s k) := by
  intro j
  have hk := h k
  have hj := h j
  unfold request_load
  cases hc : s.cache k with
  | loading => exact hj
  | resident n => exact hj
  | unloaded =>
      rw [hc] at hk
      simp only [hc]
      simp only [countKey_append]
      by_cases hjk : j = k
      · subst hjk
        simp only [if_pos rfl]
        simp [countKey] at hk ⊢
        omega
      · simp only [if_neg hjk]
        rw [hj]
        simp [countKey, Ne.symm hjk]
  | failed =>
      rw [hc] at hk
      simp only [hc]
      simp only [countKey_append]
      by_cases hjk : j = k
      · subst hjk
        simp only [if_pos rfl]
        simp [countKey] at hk ⊢
        omega
      · simp only [if_neg hjk]
        rw [hj]
        simp [countKey, Ne.symm hjk]

theorem mgrInv_finishOk (s : ManagerState) (k : ChunkKey) (h : MgrInv s) :
    MgrInv (finishLoadOk s k) := by
  intro j
  have hk := h k
  have hj := h j
  unfold finishLoadOk
  cases hc : s.cache k with
  | unloaded => exact hj
  | resident n => exact hj
  | failed => exact hj
  | loading =>
      rw [hc] at hk
      simp only [if_pos rfl] at hk
      by_cases hjk : j = k
      · subst hjk
        simp only [if_pos rfl, countKey_removeKey_self, hk]
        simp
      · simp only [if_neg hjk, countKey_removeKey_ne j k hjk]
        exact hj

theorem mgrInv_finishErr (s : ManagerState) (k : ChunkKey) (h : MgrInv s) :
    MgrInv (finishLoadErr s k) := by
  intro j
  have hk := h k
  have hj := h j
  unfold finishLoadErr
  cases hc : s.cache k with
  | unloaded => exact hj
  | resident n => exact hj
  | failed => exact hj
  | loading =>
      rw [hc] at hk
      simp only [if_pos rfl] at hk
      by_cases hjk : j = k
      · subst hjk
        simp only [if_pos rfl, countKey_removeKey_self, hk]
        simp
      · simp only [if_neg hjk, countKey_removeKey_ne j k hjk]
        exact hj

theorem mgrInv_tick (grace : ℕ) (s : ManagerState) (active : List ChunkKey)
    (h : MgrInv s) : MgrInv (tick grace s active) := by
  intro k
  have hk := h k
  simp only [tick, countKey_append, countKey_filter, countKey_uniqueKeys]
  by_cases hm : k ∈ active
  · simp only [if_pos hm]
    cases hc : s.cache k with
    | unloaded =>
        rw [hc] at hk
        simp only [hc, activeStep]
        simp at hk
        simp [hk]
    | loading =>
        rw [hc] at hk
        simp only [hc, activeStep]
        simp at hk
        simp [hk]
    | resident n =>
        rw [hc] at hk
        simp only [hc, activeStep]
        simp at hk
        simp [hk]
    | failed =>
        rw [hc] at hk
        simp only [hc, activeStep]
        simp at hk
        simp [hk]
  · simp only [if_neg hm]
    cases hc : s.cache k with
    | unloaded =>
        rw [hc] at hk
        simp only [hc, passiveStep]
        simp at hk
        simp [hm, hk]
    | loading =>
        rw [hc] at hk
        simp only [hc, passiveStep]
        simp at hk
        simp [hm, hk]
    | resident n =>
        rw [hc] at hk
        simp only [hc, passiveStep]
        simp at hk
        by_cases hg : grace < n + 1
        · simp [hm, hk, hg]
        · simp [hm, hk, hg]
    | failed =>
        rw [hc] at hk
        simp only [hc, passiveStep]
        simp at hk
        simp [hm, hk]

theorem mgrInv_apply (grace : ℕ) (s : ManagerState) (a : MgrAction)
    (h : MgrInv s) : MgrInv (applyAction grace s a) := by
  cases a
  · exact mgrInv_request _ _ h
  · exact mgrInv_finishOk _ _ h
  · exact mgrInv_finishErr _ _ h
  · exact mgrInv_tick _ _ _ h

theorem mgrInv_run (grace : ℕ) (acts : List MgrAction) :
    MgrInv (runActions grace acts) := by
  unfold runActions
  generalize hs : initState = s0
  have h0 : MgrInv s0 := hs ▸ mgrInv_init
  clear hs
  induction acts generalizing s0 with
  | nil => exact h0
  | cons a t ih => exact ih _ (mgrInv_apply grace s0 a h0)

/-- C2: `request_load` is idempotent — if the chunk is Resident or already
Loading no new load is started (the state is unchanged); two successive
`request_load` calls on the same unresolved cell cause exactly one
underlying fetch; and in every reachable manager state each key has at
most one in-flight load. -/
theorem request_load_idempotent :
    (∀ s k n, s.cache k = ChunkState.resident n → request_load s k = s) ∧
    (∀ s k, s.cache k = ChunkState.loading → request_load s k = s) ∧
    (∀ s k, s.cache k = ChunkState.unloaded →
      countKey k (request_load (request_load s k) k).fetchLog =
        countKey k s.fetchLog + 1) ∧
    (∀ grace acts k, countKey k (runActions grace acts).inFlight ≤ 1) := by
  refine ⟨?_, ?_, ?_, ?_⟩
  · intro s k n h
    simp [request_load, h]
  · intro s k h
    simp [request_load, h]
  · intro s k h
    simp [request_load, h, countKey_append, countKey]
  · intro grace acts k
    rw [mgrInv_run grace acts k]
    split <;> simp

/-- Witness for `request_load_idempotent`: from the initial state, two
requests for the same cell log exactly one fetch. -/
theorem request_load_idempotent_witness :
    initState.cache ("model", (0, 0, 0)) = ChunkState.unloaded ∧
    countKey ("model", (0, 0, 0))
        (request_load (request_load initState ("model", (0, 0, 0)))
          ("model", (0, 0, 0))).fetchLog =
      countKey ("model", (0, 0, 0)) initState.fetchLog + 1 :=
  ⟨rfl, request_load_idempotent.2.2.1 initState ("model", (0, 0, 0)) rfl⟩

/-! ## Eviction with grace period (spec 4.4 tick / eviction policy) -/

/-- Manager state after a sequence of ticks with the given active sets. -/
def ticksRun (grace : ℕ) (s : ManagerState)
    (seq : List (List ChunkKey)) : ManagerState :=
  seq.foldl (tick grace) s

theorem tick_outside_cache (grace : ℕ) (s : ManagerState) (k : ChunkKey)
    (active : List ChunkKey) (hm : k ∉ active) :
    (tick grace s active).cache k = passiveStep grace (s.cache k) := by
  simp [tick, hm]

theorem ticksRun_unloaded (grace : ℕ) (seq : List (List ChunkKey)) :
    ∀ s (k : ChunkKey), s.cache k = ChunkState.unloaded →
      (∀ a ∈ seq, k ∉ a) →
      (ticksRun grace s seq).cache k = ChunkState.unloaded := by
  induction seq with
  | nil => intro s k h _; exact h
  | cons a t ih =>
      intro s k h hout
      have h1 : (tick grace s a).cache k = ChunkState.unloaded := by
        rw [tick_outside_cache grace s k a (hout a (by simp)), h]
        rfl
      exact ih _ k h1 (fun b hb => hout b (by simp [hb]))

theorem ticksRun_resident (grace : ℕ) (seq : List (List ChunkKey)) :
    ∀ s (k : ChunkKey) (n : ℕ), s.cache k = ChunkState.resident n →
      (∀ a ∈ seq, k ∉ a) →
      (ticksRun grace s seq).cache k =
        (if seq.length = 0 then ChunkState.resident n
         else if grace < n + seq.length then ChunkState.unloaded
         else ChunkState.resident (n + seq.length)) := by
  induction seq with
  | nil => intro s k n h _; simpa using h
  | cons a t ih =>
      intro s k n h hout
      have hstep : (tick grace s a).cache k = passiveStep grace (ChunkState.resident n) := by
        rw [tick_outside_cache grace s k a (hout a (by simp)), h]
      rw [show ticksRun grace s (a :: t) = ticksRun grace (tick grace s a) t from rfl]
      simp only [List.length_cons]
      by_cases hg : grace < n + 1
      · have h1 : (tick grace s a).cache k = ChunkState.unloaded := by
          rw [hstep]
          simp [passiveStep, hg]
        rw [ticksRun_unloaded grace t _ k h1 (fun b hb => hout b (by simp [hb]))]
        have hlt : grace < n + (t.length + 1) := by omega
        simp [hlt]
      · have h1 : (tick grace s a).cache k = ChunkState.resident (n + 1) := by
          rw [hstep]
          simp [passiveStep, hg]
        rw [ih _ k (n + 1) h1 (fun b hb => hout b (by simp [hb]))]
        by_cases ht : t.length = 0
        · simp [ht, hg]
        · have heq : n + 1 + t.length = n + (t.length + 1) := by omega
          by_cases hgl : grace < n + (t.length + 1)
          · simp [ht, heq, hgl]
          · simp [ht, heq, hgl]

/-- C5: a Resident chunk that stays outside every entity's spawn radius
(absent from the active set) is still Resident while at most the grace
period has elapsed — eviction never happens early — and once outside for
longer than the grace period it transitions to Unloaded and
`poll_resident` returns `None` for it. -/
theorem eviction_after_grace (grace : ℕ) (s : ManagerState) (k : ChunkKey)
    (seq : List (List ChunkKey)) (h : s.cache k = ChunkState.resident 0)
    (hout : ∀ a ∈ seq, k ∉ a) :
    (seq.length ≤ grace →
      (ticksRun grace s seq).cache k = ChunkState.resident seq.length) ∧
    (grace < seq.length →
      (ticksRun grace s seq).cache k = ChunkState.unloaded ∧
      poll_resident (ticksRun grace s seq) k = none) := by
  have hr := ticksRun_resident grace seq s k 0 h hout
  constructor
  · intro hle
    by_cases h0 : seq.length = 0
    · rw [hr, if_pos h0, h0]
    · have hnl : ¬ grace < 0 + seq.length := by omega
      rw [hr, if_neg h0, if_neg hnl, Nat.zero_add]
  · intro hgt
    have h0 : ¬ seq.length = 0 := by omega
    have hlt : grace < 0 + seq.length := by omega
    have hc : (ticksRun grace s seq).cache k = ChunkState.unloaded := by
      rw [hr, if_neg h0, if_pos hlt]
    exact ⟨hc, by simp [poll_resident, hc]⟩

/-- Concrete state with one resident chunk, used to witness eviction. -/
def residentExampleState : ManagerState :=
  { cache := fun j =>
      if j = ("m", (0, 0, 0)) then ChunkState.resident 0
      else ChunkState.unloaded,
    inFlight := [], fetchLog := [] }

/-- Witness for `eviction_after_grace`: grace period 1, two ticks outside
the active set unload the chunk and `poll_resident` returns `None`. -/
theorem eviction_after_grace_witness :
    (ticksRun 1 residentExampleState [[], []]).cache ("m", (0, 0, 0)) =
      ChunkState.unloaded ∧
    poll_resident (ticksRun 1 residentExampleState [[], []])
      ("m", (0, 0, 0)) = none :=
  (eviction_after_grace 1 residentExampleState ("m", (0, 0, 0)) [[], []]
    (by decide) (by decide)).2 (by decide)

/-- C6: a load failure transitions a Loading chunk to the terminal Failed
state; `poll_resident` returns `None` for a Failed chunk; every manager
event other than an explicit `request_load` for that key leaves the chunk
Failed and issues no new fetch for it; and an explicit `request_load`
does retry it, issuing exactly one new fetch. -/
theorem load_failure_terminal (grace : ℕ) (s : ManagerState) (k : ChunkKey) :
    (s.cache k = ChunkState.loading →
      (finishLoadErr s k).cache k = ChunkState.failed) ∧
    (s.cache k = ChunkState.failed → poll_resident s k = none) ∧
    (s.cache k = ChunkState.failed → ∀ a, a ≠ MgrAction.request k →
      (applyAction grace s a).cache k = ChunkState.failed ∧
      countKey k (applyAction grace s a).fetchLog =
        countKey k s.fetchLog) ∧
    (s.cache k = ChunkState.failed →
      (request_load s k).cache k = ChunkState.loading ∧
      countKey k (request_load s k).fetchLog =
        countKey k s.fetchLog + 1) := by
  refine ⟨?_, ?_, ?_, ?_⟩
  · intro h
    simp [finishLoadErr, h]
  · intro h
    simp [poll_resident, h]
  · intro h a ha
    cases a with
    | request j =>
        have hjk : j ≠ k := by
          intro hj
          exact ha (by rw [hj])
        simp only [applyAction]
        unfold request_load
        cases hj : s.cache j with
        | resident n => exact ⟨h, rfl⟩
        | loading => exact ⟨h, rfl⟩
        | unloaded =>
            constructor
            · simp [hjk, Ne.symm hjk, h]
            · simp [countKey_append, countKey, hjk]
        | failed =>
            constructor
            · simp [hjk, Ne.symm hjk, h]
            · simp [countKey_append, countKey, hjk]
    | finishOk j =>
        simp only [applyAction]
        unfold finishLoadOk
        cases hj : s.cache j with
        | resident n => exact ⟨h, rfl⟩
        | unloaded => exact ⟨h, rfl⟩
        | failed => exact ⟨h, rfl⟩
        | loading =>
            have hjk : j ≠ k := by
              intro hj2
              rw [hj2] at hj
              rw [hj] at h
              cases h
            constructor
            · simp [Ne.symm hjk, h]
            · rfl
    | finishErr j =>
        simp only [applyAction]
        unfold finishLoadErr
        cases hj : s.cache j with
        | resident n => exact ⟨h, rfl⟩
        | unloaded => exact ⟨h, rfl⟩
        | failed => exact ⟨h, rfl⟩
        | loading =>
            have hjk : j ≠ k := by
              intro hj2
              rw [hj2] at hj
              rw [hj] at h
              cases h
            constructor
            · simp [Ne.symm hjk, h]
            · rfl
    | tickStep active =>
        simp only [applyAction, tick]
        constructor
        · by_cases hm : k ∈ active
          · simp [hm, h, activeStep]
          · simp [hm, h, passiveStep]
        · rw [countKey_append, countKey_filter]
          simp [h]
  · intro h
    constructor
    · simp [request_load, h]
    · simp [request_load, h, countKey_append, countKey]

/-- Concrete state with one failed chunk, used to witness the failure
handling. -/
def failedExampleState : ManagerState :=
  { cache := fun j =>
      if j = ("m", (0, 0, 0)) then ChunkState.failed
      else ChunkState.unloaded,
    inFlight := [], fetchLog := [] }

/-- Witness for `load_failure_terminal`: polling a failed chunk yields
`None` and a tick with it in the active set does not retry it. -/
theorem load_failure_terminal_witness :
    poll_resident failedExampleState ("m", (0, 0, 0)) = none ∧
    ((applyAction 0 failedExampleState
        (MgrAction.tickStep [("m", (0, 0, 0))])).cache ("m", (0, 0, 0)) =
      ChunkState.failed ∧
    countKey ("m", (0, 0, 0))
        (applyAction 0 failedExampleState
          (MgrAction.tickStep [("m", (0, 0, 0))])).fetchLog =
      countKey ("m", (0, 0, 0)) failedExampleState.fetchLog) :=
  ⟨(load_failure_terminal 0 failedExampleState ("m", (0, 0, 0))).2.1
      (by decide),
   (load_failure_terminal 0 failedExampleState ("m", (0, 0, 0))).2.2.1
      (by decide) (MgrAction.tickStep [("m", (0, 0, 0))]) (by decide)⟩

/-! ## Chunk store identity and packaging (build.rs / main.rs) -/

/-- Embedded from build.rs: the directory the build step writes chunk
artifacts to (constant CHUNK_OUTPUT_DIR). -/
def CHUNK_OUTPUT_DIR : String := "target/world_chunks"

/-- Embedded from main.rs: the directory whose contents the runtime embeds
into the binary as the immutable constant WORLD_CHUNKS. -/
def WORLD_CHUNKS_SOURCE_DIR : String := "target/world_chunks"

/-- Embedded from main.rs `main`: the chunk store handed to the
WorldChunkManager on construction is the embedded WORLD_CHUNKS constant. -/
def worldChunkManagerStore : String := WORLD_CHUNKS_SOURCE_DIR

/-- Effect of a runtime chunk-manager event on the chunk store. -/
inductive StoreEffect where
  | readChunk (k : ChunkKey)
  | writeChunk (k : ChunkKey)
deriving DecidableEq

/-- Modelled from the spec: the chunk-store effects of each runtime
event; starting a load fetches (reads) an artifact, and no event writes
to the store. -/
def actionEffects (s : ManagerState) : MgrAction → List StoreEffect
  | MgrAction.request k =>
      match s.cache k with
      | ChunkState.resident _ => []
      | ChunkState.loading => []
      | _ => [StoreEffect.readChunk k]
  | MgrAction.finishOk _ => []
  | MgrAction.finishErr _ => []
  | MgrAction.tickStep active =>
      ((uniqueKeys active).filter
        (fun k => decide (s.cache k = ChunkState.unloaded))).map
        StoreEffect.readChunk

/-- C8: the chunk store is read-only at run time and its identity is
stable between build time and run time: the runtime's embedded chunk
directory handed to the WorldChunkManager is exactly the build output
directory, and every chunk-store effect of a runtime chunk-manager event
is a read, never a write. -/
theorem chunk_store_stable_and_read_only :
    worldChunkManagerStore = CHUNK_OUTPUT_DIR ∧
    ∀ s a e, e ∈ actionEffects s a → ∃ k, e = StoreEffect.readChunk k := by
  refine ⟨rfl, ?_⟩
  intro s a e he
  cases a with
  | request k =>
      refine ⟨k, ?_⟩
      cases hc : s.cache k <;> simp [actionEffects, hc] at he
      · exact he
      · exact he
  | finishOk k => cases he
  | finishErr k => cases he
  | tickStep active =>
      unfold actionEffects at he
      obtain ⟨j, _, hj⟩ := List.mem_map.mp he
      exact ⟨j, hj.symm⟩

/-- Witness for `chunk_store_stable_and_read_only`: the effect of the
first load request from the initial state is a read of that chunk. -/
theorem chunk_store_stable_witness :
    StoreEffect.readChunk ("m", (0, 0, 0)) ∈
      actionEffects initState (MgrAction.request ("m", (0, 0, 0))) ∧
    ∃ k, StoreEffect.readChunk ("m", (0, 0, 0)) = StoreEffect.readChunk k :=
  ⟨by decide,
   chunk_store_stable_and_read_only.2 initState
     (MgrAction.request ("m", (0, 0, 0)))
     (StoreEffect.readChunk ("m", (0, 0, 0))) (by decide)⟩

/-! ## Build step entry point (build.rs) -/

/-- Outcome of the build step's main function: either a panic (from the
unwrap on directory creation) or completion with the built artifacts. -/
inductive BuildOutcome where
  | panicked (msg : String)
  | completed (artifacts : List (List (CellCoord × Except String (List Byte))))

/-- Embedded from build.rs `main`: create the chunk output directory,
panicking (unwrap) if that fails, then build the world models into the
chunk store.  Each model is its id, material table and triangle list. -/
def buildMain (createDirResult : Except String Unit) (enc : Vec3 → Vert)
    (pol : Policy) (s : ℚ)
    (models : List ((List Byte × List Byte) × List Tri)) : BuildOutcome :=
  match createDirResult with
  | Except.error e => BuildOutcome.panicked e
  | Except.ok _ => BuildOutcome.completed
      (models.map (fun m => buildArtifacts enc pol s m.1.1 m.1.2 m.2))

/-- C9: build-time errors abort the build — if creating the chunk output
directory fails, the build step's main panics instead of continuing to
produce a partial chunk store. -/
theorem build_main_panics_on_dir_failure (e : String) (enc : Vec3 → Vert)
    (pol : Policy) (s : ℚ)
    (models : List ((List Byte × List Byte) × List Tri)) :
    buildMain (Except.error e) enc pol s models = BuildOutcome.panicked e :=
  rfl

/-! ## Fire orb movement system (src/sim/fire_orb.rs) -/

/-- Quaternion with rational components (w, x, y, z), standing for
cgmath's f32 quaternion. -/
structure Quat where
  w : ℚ
  x : ℚ
  y : ℚ
  z : ℚ
deriving DecidableEq

/-- Embedded from cgmath's Quaternion::from_angle_y: the rotation about
the Y axis by the given angle; `sinF` and `cosF` stand for floating-point
sine and cosine. -/
def from_angle_y (sinF cosF : ℚ → ℚ) (angle : ℚ) : Quat :=
  { w := cosF (angle / 2), x := 0, y := sinF (angle / 2), z := 0 }

/-- Embedded from dreamfield_renderer's Position component as used by
fire_orb.rs: a position vector and a rotation. -/
structure Position where
  pos : Vec3
  rot : Quat
deriving DecidableEq

/-- Embedded from fire_orb.rs: the fire orb marker component, which has
no fields. -/
structure FireOrb where
deriving DecidableEq

/-- Embedded from fire_orb.rs `fire_orb_movement`: for every entity with
a FireOrb and a Position, set the position's y to sin(sim_time) + 2.0 and
the rotation to the rotation about Y by sim_time.  `sinF` and `cosF`
stand for floating-point sine and cosine, and the f64-to-f32 casts are
modelled as exact. -/
def fire_orb_movement (sinF cosF : ℚ → ℚ) (simTime : ℚ)
    (ents : List (FireOrb × Position)) : List (FireOrb × Position) :=
  ents.map (fun e =>
    (e.1, { pos := (e.2.pos.1, sinF simTime + 2, e.2.pos.2.2),
            rot := from_angle_y sinF cosF simTime }))

/-- C10: one run of `fire_orb_movement` at simulation time t sets, for
every entity holding a FireOrb and a Position, the position's y component
to sin(t) + 2 and the rotation to the rotation about the Y axis by t,
while leaving the position's x and z components and the FireOrb component
itself unchanged. -/
theorem fire_orb_movement_effect (sinF cosF : ℚ → ℚ) (t : ℚ)
    (ents : List (FireOrb × Position)) (i : ℕ) (h : i < ents.length)
    (h2 : i < (fire_orb_movement sinF cosF t ents).length) :
    ((fire_orb_movement sinF cosF t ents).get ⟨i, h2⟩).1 =
        (ents.get ⟨i, h⟩).1 ∧
    ((fire_orb_movement sinF cosF t ents).get ⟨i, h2⟩).2.pos.2.1 =
        sinF t + 2 ∧
    ((fire_orb_movement sinF cosF t ents).get ⟨i, h2⟩).2.rot =
        from_angle_y sinF cosF t ∧
    ((fire_orb_movement sinF cosF t ents).get ⟨i, h2⟩).2.pos.1 =
        (ents.get ⟨i, h⟩).2.pos.1 ∧
    ((fire_orb_movement sinF cosF t ents).get ⟨i, h2⟩).2.pos.2.2 =
        (ents.get ⟨i, h⟩).2.pos.2.2 := by
  simp [fire_orb_movement, List.get_eq_getElem, List.getElem_map]

/-- Concrete fire orb entity list used to witness the movement system. -/
def fireOrbExampleEnts : List (FireOrb × Position) :=
  [(FireOrb.mk, { pos := (1, 5, 7), rot := { w := 1, x := 0, y := 0, z := 0 } })]

/-- Witness for `fire_orb_movement_effect` on a one-entity world at
simulation time 3, with sine and cosine instantiated to the identity. -/
theorem fire_orb_movement_effect_witness :
    ((fire_orb_movement id id 3 fireOrbExampleEnts).get ⟨0, by decide⟩).1 =
        (fireOrbExampleEnts.get ⟨0, by decide⟩).1 ∧
    ((fire_orb_movement id id 3 fireOrbExampleEnts).get
        ⟨0, by decide⟩).2.pos.2.1 = id 3 + 2 ∧
    ((fire_orb_movement id id 3 fireOrbExampleEnts).get ⟨0, by decide⟩).2.rot =
        from_angle_y id id 3 ∧
    ((fire_orb_movement id id 3 fireOrbExampleEnts).get
        ⟨0, by decide⟩).2.pos.1 =
        (fireOrbExampleEnts.get ⟨0, by decide⟩).2.pos.1 ∧
    ((fire_orb_movement id id 3 fireOrbExampleEnts).get
        ⟨0, by decide⟩).2.pos.2.2 =
        (fireOrbExampleEnts.get ⟨0, by decide⟩).2.pos.2.2 :=
  fire_orb_movement_effect id id 3 fireOrbExampleEnts 0 (by decide) (by decide)

end Dreamfield
